import Mathlib

/-!
# Verification of the ifrit interactive logs viewer

Shallow embedding of `internal/ui/logsviewer/logsviewer.go`: the Bubble Tea
model (`Model`), its message types, the `Update` state transition, the
per-tab bounded line buffer, the construction path (`New`/`Run`), the
line-source event production (`tailLogs`/`continueScanning`), and the
line scanner's maximum-token-size behaviour.

The external charmbracelet/bubbles viewport component is modelled by a
small record `Viewport` together with a parameter record `VpLib` holding
the viewport operations whose behaviour the viewer does not control
(scroll handling for forwarded key messages, and content layout): all
theorems hold for every implementation of those operations.  The
operations with trivial documented semantics (`AtBottom`, `GotoBottom`,
`GotoTop`, `New`) are modelled concretely.
-/

set_option maxHeartbeats 1000000

namespace LogsViewer

/-- maxLines is the maximum number of log lines kept per tab
(`const maxLines = 10000`). -/
def maxLines : Nat := 10000

/-- The buffer mutation performed by `appendLine` on a tab's line list:
append to the tail and, when the length exceeds the cap, keep only the
most recent `cap` lines (`t.lines = t.lines[len(t.lines)-maxLines:]`).
The cap is a parameter so that the spec's cap-5 scenario is statable;
the viewer itself always uses `maxLines`. -/
def boundedAppend (cap : Nat) (lines : List String) (line : String) : List String :=
  let ls := lines ++ [line]
  if cap < ls.length then ls.drop (ls.length - cap) else ls

/-- Folding `boundedAppend` over a whole sequence of appended lines. -/
def appendAll (cap : Nat) (init : List String) (ls : List String) : List String :=
  ls.foldl (boundedAppend cap) init

/-- Replace the element at index `i` by `f` applied to it (no-op when out of
range); used to model in-place mutation of one slice element. -/
def updateAt {α : Type} (i : Nat) (f : α → α) : List α → List α
  | [] => []
  | x :: xs =>
    match i with
    | 0 => f x :: xs
    | n + 1 => x :: updateAt n f xs

/-- Model of the external bubbles `viewport.Model`: a vertical scroll
offset, the maximal offset (derived from content and geometry by the
library), the current content and the geometry. -/
structure Viewport where
  yOffset : Int
  maxYOffset : Int
  content : String
  width : Int
  height : Int
deriving DecidableEq

/-- Model of `viewport.New(width, height)`. -/
def Viewport.new (w h : Int) : Viewport :=
  { yOffset := 0, maxYOffset := 0, content := "", width := w, height := h }

/-- Model of `AtBottom()`: whether the offset has reached the maximal offset. -/
def Viewport.atBottom (v : Viewport) : Bool :=
  v.maxYOffset ≤ v.yOffset

/-- Model of `GotoBottom()`: jump the offset to the maximal offset. -/
def Viewport.gotoBottom (v : Viewport) : Viewport :=
  { v with yOffset := v.maxYOffset }

/-- Model of `GotoTop()`: jump the offset to zero. -/
def Viewport.gotoTop (v : Viewport) : Viewport :=
  { v with yOffset := 0 }

/-- The viewport operations owned by the external library whose behaviour
the viewer does not control: `viewport.Model.Update` (scroll handling of a
forwarded key message, identified by its key string) and `SetContent`
(content replacement together with the library's internal layout
recalculation). -/
structure VpLib where
  update : Viewport → String → Viewport
  setContent : Viewport → String → Viewport

/-- Model of an `*exec.Cmd`: whether `cmd.Process` is non-nil (the process
was started) and whether `Process.Kill` has been issued on it. -/
structure ExecCmd where
  processStarted : Bool
  killed : Bool
deriving DecidableEq

/-- Model of the read end `*os.File` of a source's pipe: whether `Close`
has been called on it. -/
structure PipeReader where
  closed : Bool
deriving DecidableEq

/-- tabData holds per-tab state. -/
structure tabData where
  name : String
  lines : List String
  viewport : Viewport
  follow : Bool
  hasUnread : Bool
deriving DecidableEq

/-- Model is the top-level Bubble Tea model for the logs viewer.  `cmds`
entries are `none` for a nil `*exec.Cmd` pointer, `readers` entries are
`none` for a nil `*os.File` pointer. -/
structure Model where
  tabs : List tabData
  active : Int
  width : Int
  height : Int
  ready : Bool
  cmds : List (Option ExecCmd)
  readers : List (Option PipeReader)
  quitting : Bool
deriving DecidableEq

/-- The messages handled by `Update`.  `logLineAndContinue` carries, in the
source, an additional `next` command that only schedules the next read and
does not affect the model state, so it is not part of the message here;
`tab` indices are `Int` because the Go fields are `int`. -/
inductive Msg where
  | key (k : String)
  | windowSize (w h : Int)
  | logLineAndContinue (tab : Int) (line : String)
  | logLine (tab : Int) (line : String)
  | processExited (tab : Int) (err : Option String)
deriving DecidableEq

/-- syncViewport updates the active tab's viewport content. -/
def Model.syncViewport (lib : VpLib) (m : Model) : Model :=
  if m.ready = false then m
  else
    { m with
      tabs := updateAt m.active.toNat (fun tab =>
        let content := String.intercalate "\n" tab.lines
        let vp := lib.setContent tab.viewport content
        let vp := if tab.follow then vp.gotoBottom else vp
        { tab with viewport := vp }) m.tabs }

/-- appendLine adds a line to the tab and refreshes the viewport. -/
def Model.appendLine (lib : VpLib) (m : Model) (tab : Int) (line : String) : Model :=
  if tab < 0 ∨ (m.tabs.length : Int) ≤ tab then m
  else
    let m1 : Model :=
      { m with
        tabs := updateAt tab.toNat (fun t =>
          { t with lines := boundedAppend maxLines t.lines line }) m.tabs }
    if tab = m.active then
      m1.syncViewport lib
    else
      { m1 with
        tabs := updateAt tab.toNat (fun t => { t with hasUnread := true }) m1.tabs }

/-- viewportHeight returns the usable viewport height after subtracting the
tab bar and help line. -/
def Model.viewportHeight (m : Model) : Int :=
  let chrome : Int := 4
  max (m.height - chrome) 1

/-- initViewports (re-)initializes all viewports to the current terminal
size.  (`MouseWheelEnabled = false` concerns only the library's input
handling and is not modelled.) -/
def Model.initViewports (lib : VpLib) (m : Model) : Model :=
  { m with
    tabs := m.tabs.map (fun t =>
      let vp := Viewport.new m.width m.viewportHeight
      let vp := lib.setContent vp (String.intercalate "\n" t.lines)
      let vp := if t.follow then vp.gotoBottom else vp
      { t with viewport := vp }) }

/-- killAll kills all background log processes and closes pipe readers so
that any blocked `scanner.Scan()` calls unblock and return. -/
def Model.killAll (m : Model) : Model :=
  { m with
    cmds := m.cmds.map (fun c =>
      match c with
      | some cmd =>
        some (if cmd.processStarted then { cmd with killed := true } else cmd)
      | none => none),
    readers := m.readers.map (fun r =>
      match r with
      | some f => some { f with closed := true }
      | none => none) }

/-- The 0-based direct-jump index computed from a digit key string: the
first character code minus the code of the zero digit, minus 1. -/
def digitIdx (k : String) : Int :=
  ((k.toList.headD ' ').toNat : Int) - (Char.toNat (Char.ofNat 48) : Int) - 1

/-- The suffix line appended on a `processExitedMsg` (note the leading
space in the source literals). -/
def exitSuffix (err : Option String) : String :=
  match err with
  | none => " [process exited]"
  | some e => " [process exited: " ++ e ++ "]"

/-- Update handles messages: the state-transition part of `Update` (the
returned `tea.Cmd`s — `tea.Quit`, forwarded viewport commands and the
`next` continuation of `logLineAndContinue` — do not touch the model).
Go's `%` on `int` is truncated division remainder; the operands occurring
here (`m.active` in range, positive tab count) are non-negative, where it
agrees with `Int.emod` used below. -/
def Model.update (lib : VpLib) (m : Model) (msg : Msg) : Model :=
  match msg with
  | .key k =>
    if k = "ctrl+c" ∨ k = "q" ∨ k = "esc" then
      Model.killAll { m with quitting := true }
    else if k = "tab" ∨ k = "right" ∨ k = "l" then
      let active := (m.active + 1) % (m.tabs.length : Int)
      let m2 : Model := { m with
        active := active,
        tabs := updateAt active.toNat (fun t => { t with hasUnread := false }) m.tabs }
      m2.syncViewport lib
    else if k = "shift+tab" ∨ k = "left" ∨ k = "h" then
      let active := (m.active - 1 + (m.tabs.length : Int)) % (m.tabs.length : Int)
      let m2 : Model := { m with
        active := active,
        tabs := updateAt active.toNat (fun t => { t with hasUnread := false }) m.tabs }
      m2.syncViewport lib
    else if k = "1" ∨ k = "2" ∨ k = "3" ∨ k = "4" ∨ k = "5" ∨ k = "6" ∨ k = "7" ∨
        k = "8" ∨ k = "9" then
      let idx := digitIdx k
      if idx < (m.tabs.length : Int) then
        let m2 : Model := { m with
          active := idx,
          tabs := updateAt idx.toNat (fun t => { t with hasUnread := false }) m.tabs }
        m2.syncViewport lib
      else m
    else if k = "G" ∨ k = "end" then
      { m with tabs := updateAt m.active.toNat (fun t =>
          { t with follow := true, viewport := t.viewport.gotoBottom }) m.tabs }
    else if k = "g" ∨ k = "home" then
      { m with tabs := updateAt m.active.toNat (fun t =>
          { t with follow := false, viewport := t.viewport.gotoTop }) m.tabs }
    else
      { m with tabs := updateAt m.active.toNat (fun t =>
          let vp := lib.update t.viewport k
          { t with viewport := vp, follow := vp.atBottom }) m.tabs }
  | .windowSize w h =>
    Model.initViewports lib { m with width := w, height := h, ready := true }
  | .logLineAndContinue tab line => m.appendLine lib tab line
  | .logLine tab line => m.appendLine lib tab line
  | .processExited tab err => m.appendLine lib tab (exitSuffix err)

/-- One step of the construction loop in `New`: build the command for one
name via the builder capability, recording the builder call; on success
initialise the tab (`lines` empty, `follow` true) and continue with the
remaining names.  Returns the construction outcome (tabs and commands, or
the wrapped first build error) together with the list of names the builder
was called on, in call order. -/
def NewAux (builder : String → Except String ExecCmd) :
    List String → Except String (List tabData × List ExecCmd) × List String
  | [] => (Except.ok ([], []), [])
  | name :: rest =>
    match builder name with
    | .error e =>
      (Except.error ("failed to build log command for " ++ name ++ ": " ++ e), [name])
    | .ok cmd =>
      let r := NewAux builder rest
      match r.1 with
      | .error e => (Except.error e, name :: r.2)
      | .ok (tabs, cmds) =>
        (Except.ok
          ({ name := name, lines := [], follow := true, hasUnread := false,
             viewport := Viewport.new 0 0 } :: tabs, cmd :: cmds),
         name :: r.2)

/-- The list of names `New` calls the builder on, in order. -/
def buildCalls (names : List String) (builder : String → Except String ExecCmd) :
    List String :=
  (NewAux builder names).2

/-- New creates a new Model (it does not start the background processes);
the builder capability is called once per name, in order, stopping at the
first failure.  `readers` starts as nil pointers. -/
def New (names : List String) (builder : String → Except String ExecCmd) :
    Except String Model :=
  match (NewAux builder names).1 with
  | .error e => Except.error e
  | .ok (tabs, cmds) =>
    Except.ok
      { tabs := tabs, active := 0, width := 0, height := 0, ready := false,
        cmds := cmds.map Option.some, readers := names.map (fun _ => Option.none),
        quitting := false }

/-- Run up to the point the Bubble Tea run loop is entered: an empty name
list is rejected, then `New` runs; `Except.ok m` means the run loop is
entered with initial model `m` (the loop itself and the terminal handover
are external). -/
def Run (names : List String) (builder : String → Except String ExecCmd) :
    Except String Model :=
  if names.length = 0 then Except.error "no projects to show logs for"
  else New names builder

/-- continueScanning, unfolded into the full sequence of messages the
continuation chain delivers: one `logLineAndContinue` per remaining
scanned line, then `cmd.Wait` and a terminal `processExitedMsg` carrying
the wait error. -/
def continueScanning (tab : Int) (stream : List String) (waitErr : Option String) :
    List Msg :=
  match stream with
  | line :: rest => Msg.logLineAndContinue tab line :: continueScanning tab rest waitErr
  | [] => [Msg.processExited tab waitErr]

/-- tailLogs, unfolded into the full sequence of messages the source
delivers to the event loop.  `pipeErr` is a failure of `os.Pipe`
(wrapped as "pipe: ..."), `startErr` a failure of `cmd.Start` (after
which both pipe ends are closed), `stream` the lines the scanner yields
from the merged output, `waitErr` the error captured by `cmd.Wait`. -/
def tailEvents (tab : Int) (pipeErr startErr : Option String)
    (stream : List String) (waitErr : Option String) : List Msg :=
  match pipeErr with
  | some e => [Msg.processExited tab (some ("pipe: " ++ e))]
  | none =>
    match startErr with
    | some e => [Msg.processExited tab (some e)]
    | none =>
      match stream with
      | line :: rest => Msg.logLineAndContinue tab line :: continueScanning tab rest waitErr
      | [] => [Msg.processExited tab waitErr]

/-- Model of how `bufio.ScanLines` drops a final carriage return. -/
def dropCR (l : List Char) : List Char :=
  if l.getLast? = some (Char.ofNat 13) then l.dropLast else l

/-- Model of `bufio.Scanner` with the default `ScanLines` split function
and a maximum token size, as configured in tailLogs by
`scanner.Buffer(make([]byte, 0, 64*1024), 1024*1024)`: the input is split
on newline characters (a trailing carriage return is dropped); when the
line being accumulated reaches the maximum token size without a newline
the scanner stops with `ErrTooLong` and yields nothing further; a final
unterminated line is yielded at end of input.  `acc` is the partial line
buffered so far. -/
def scanLinesAux (maxTok : Nat) : List Char → List Char → List (List Char)
  | [], acc => if acc.isEmpty then [] else [dropCR acc]
  | c :: rest, acc =>
    if c = Char.ofNat 10 then dropCR acc :: scanLinesAux maxTok rest []
    else if maxTok ≤ acc.length + 1 then []
    else scanLinesAux maxTok rest (acc ++ [c])

/-- The lines a source's scanner yields from a raw merged output stream,
with the 1 MiB maximum token size set in tailLogs. -/
def scanLines (input : List Char) : List (List Char) :=
  scanLinesAux (1024 * 1024) input []

/-! ## Helper lemmas -/

theorem length_updateAt {α : Type} (i : Nat) (f : α → α) (l : List α) :
    (updateAt i f l).length = l.length := by
  induction l generalizing i with
  | nil => simp [updateAt]
  | cons x xs ih =>
    cases i with
    | zero => simp [updateAt]
    | succ n => simp [updateAt, ih]

theorem getElem?_updateAt {α : Type} (i j : Nat) (f : α → α) (l : List α) :
    (updateAt i f l)[j]? = if j = i then (l[j]?).map f else l[j]? := by
  induction l generalizing i j with
  | nil => simp [updateAt]
  | cons x xs ih =>
    cases i with
    | zero =>
      cases j with
      | zero => simp [updateAt]
      | succ jj => simp [updateAt]
    | succ n =>
      cases j with
      | zero => simp [updateAt]
      | succ jj => simpa [updateAt, Nat.succ_inj] using ih n jj

theorem boundedAppend_drop (cap : Nat) (b : List String) (line : String) :
    boundedAppend cap (b.drop (b.length - cap)) line =
      (b ++ [line]).drop ((b ++ [line]).length - cap) := by
  by_cases h : b.length < cap
  · have h1 : b.length - cap = 0 := by omega
    have h2 : b.length + 1 - cap = 0 := by omega
    have h3 : ¬ cap < b.length + 1 := by omega
    simp [boundedAppend, h1, h2, h3]
  · have hle : cap ≤ b.length := by omega
    have ht : (List.drop (b.length - cap) b).length = cap := by
      simp [List.length_drop]
      omega
    have htrim : cap < (List.drop (b.length - cap) b ++ [line]).length := by
      simp [ht]
    have hsplit : List.drop (b.length - cap) (b ++ [line]) =
        List.drop (b.length - cap) b ++ [line] :=
      List.drop_append_of_le_length (by omega)
    have hdd : List.drop (b.length + 1 - cap) (b ++ [line]) =
        List.drop 1 (List.drop (b.length - cap) (b ++ [line])) := by
      rw [List.drop_drop]
      congr 1
      omega
    have hlen2 : (List.drop (b.length - cap) b ++ [line]).length - cap = 1 := by
      simp [ht]
    have hlen3 : (b ++ [line]).length - cap = b.length + 1 - cap := by
      simp
    simp only [boundedAppend]
    rw [if_pos htrim, hlen2, hlen3, hdd, hsplit]

theorem appendAll_drop (cap : Nat) (b ls : List String) :
    appendAll cap (b.drop (b.length - cap)) ls =
      (b ++ ls).drop ((b ++ ls).length - cap) := by
  induction ls generalizing b with
  | nil => simp [appendAll]
  | cons l rest ih =>
    have step : appendAll cap (b.drop (b.length - cap)) (l :: rest) =
        appendAll cap ((b ++ [l]).drop ((b ++ [l]).length - cap)) rest := by
      simp only [appendAll, List.foldl_cons]
      rw [boundedAppend_drop]
    rw [step, ih (b ++ [l])]
    simp

theorem appendAll_nil_drop (cap : Nat) (ls : List String) :
    appendAll cap [] ls = ls.drop (ls.length - cap) := by
  simpa using appendAll_drop cap [] ls

theorem appendAll_nil_length_le (cap : Nat) (ls : List String) :
    (appendAll cap [] ls).length ≤ cap := by
  rw [appendAll_nil_drop]
  simp [List.length_drop]
  omega

theorem syncViewport_active (lib : VpLib) (m : Model) :
    (Model.syncViewport lib m).active = m.active := by
  unfold Model.syncViewport
  split <;> rfl

theorem syncViewport_length (lib : VpLib) (m : Model) :
    (Model.syncViewport lib m).tabs.length = m.tabs.length := by
  unfold Model.syncViewport
  split <;> simp [length_updateAt]

theorem syncViewport_hasUnread (lib : VpLib) (m : Model) (j : Nat) :
    ((Model.syncViewport lib m).tabs[j]?).map tabData.hasUnread
      = (m.tabs[j]?).map tabData.hasUnread := by
  unfold Model.syncViewport
  split
  · rfl
  · simp only [getElem?_updateAt]
    split
    · cases hh : m.tabs[j]? <;> simp
    · rfl

theorem syncViewport_lines (lib : VpLib) (m : Model) (j : Nat) :
    ((Model.syncViewport lib m).tabs[j]?).map tabData.lines
      = (m.tabs[j]?).map tabData.lines := by
  unfold Model.syncViewport
  split
  · rfl
  · simp only [getElem?_updateAt]
    split
    · cases hh : m.tabs[j]? <;> simp
    · rfl

theorem initViewports_active (lib : VpLib) (m : Model) :
    (Model.initViewports lib m).active = m.active := rfl

theorem initViewports_length (lib : VpLib) (m : Model) :
    (Model.initViewports lib m).tabs.length = m.tabs.length := by
  simp [Model.initViewports]

theorem initViewports_hasUnread (lib : VpLib) (m : Model) (j : Nat) :
    ((Model.initViewports lib m).tabs[j]?).map tabData.hasUnread
      = (m.tabs[j]?).map tabData.hasUnread := by
  simp only [Model.initViewports, List.getElem?_map]
  cases hh : m.tabs[j]? <;> simp

theorem killAll_tabs (m : Model) : (Model.killAll m).tabs = m.tabs := rfl

theorem killAll_active (m : Model) : (Model.killAll m).active = m.active := rfl

theorem appendLine_out_of_range (lib : VpLib) (m : Model) (tab : Int) (line : String)
    (h : tab < 0 ∨ (m.tabs.length : Int) ≤ tab) :
    Model.appendLine lib m tab line = m := by
  simp only [Model.appendLine]
  rw [if_pos h]

theorem appendLine_active (lib : VpLib) (m : Model) (tab : Int) (line : String) :
    (Model.appendLine lib m tab line).active = m.active := by
  simp only [Model.appendLine]
  split
  · rfl
  · split
    · rw [syncViewport_active]
    · rfl

theorem appendLine_length (lib : VpLib) (m : Model) (tab : Int) (line : String) :
    (Model.appendLine lib m tab line).tabs.length = m.tabs.length := by
  simp only [Model.appendLine]
  split
  · rfl
  · split
    · rw [syncViewport_length]
      simp [length_updateAt]
    · simp [length_updateAt]

theorem appendLine_lines (lib : VpLib) (m : Model) (tab : Int) (line : String)
    (h0 : 0 ≤ tab) (h1 : tab < (m.tabs.length : Int)) :
    ((Model.appendLine lib m tab line).tabs[tab.toNat]?).map tabData.lines
      = (m.tabs[tab.toNat]?).map (fun t => boundedAppend maxLines t.lines line) := by
  simp only [Model.appendLine]
  rw [if_neg (by omega)]
  split
  · rw [syncViewport_lines]
    simp only [getElem?_updateAt, if_pos rfl]
    cases hh : m.tabs[tab.toNat]? <;> simp
  · simp only [getElem?_updateAt, if_pos rfl]
    cases hh : m.tabs[tab.toNat]? <;> simp

theorem appendLine_hasUnread_ne (lib : VpLib) (m : Model) (tab : Int) (line : String)
    (j : Nat) (hj : j ≠ tab.toNat) :
    ((Model.appendLine lib m tab line).tabs[j]?).map tabData.hasUnread
      = (m.tabs[j]?).map tabData.hasUnread := by
  simp only [Model.appendLine]
  split
  · rfl
  · split
    · rw [syncViewport_hasUnread]
      simp [getElem?_updateAt, hj]
    · simp [getElem?_updateAt, hj]

theorem appendLine_hasUnread_self (lib : VpLib) (m : Model) (line : String) (j : Nat) :
    ((Model.appendLine lib m m.active line).tabs[j]?).map tabData.hasUnread
      = (m.tabs[j]?).map tabData.hasUnread := by
  simp only [Model.appendLine]
  split
  · rfl
  · rw [if_pos trivial, syncViewport_hasUnread]
    simp only [getElem?_updateAt]
    split
    · cases hh : m.tabs[j]? <;> simp
    · rfl

theorem appendLine_hasUnread_other (lib : VpLib) (m : Model) (tab : Int) (line : String)
    (h0 : 0 ≤ tab) (h1 : tab < (m.tabs.length : Int)) (hne : tab ≠ m.active) :
    ((Model.appendLine lib m tab line).tabs[tab.toNat]?).map tabData.hasUnread
      = some true := by
  simp only [Model.appendLine]
  rw [if_neg (by omega), if_neg hne]
  have hlt : tab.toNat < m.tabs.length := by omega
  simp only [getElem?_updateAt, if_pos rfl]
  rw [List.getElem?_eq_getElem (by simpa [length_updateAt] using hlt)]
  simp [getElem?_updateAt]

/-- Well-formedness: the active index is in range (this forces the tab
count to be positive, which `Run` guarantees by rejecting empty name
lists; Go would panic on `% 0` otherwise). -/
def Model.wf (m : Model) : Prop :=
  0 ≤ m.active ∧ m.active < (m.tabs.length : Int)

/-- The active tab's unread flag is false. -/
def activeUnreadFalse (m : Model) : Prop :=
  ∀ u, m.tabs[m.active.toNat]? = some u → u.hasUnread = false

/-- The viewer invariant: well-formed active index and no unread mark on
the active tab. -/
def Inv (m : Model) : Prop :=
  m.wf ∧ activeUnreadFalse m

/-- The states the viewer can be in: an initial model built by `New` from
a non-empty name list, closed under `Update` steps. -/
inductive Reachable (lib : VpLib) : Model → Prop where
  | init : ∀ (names : List String) (builder : String → Except String ExecCmd) (m : Model),
      names ≠ [] → New names builder = Except.ok m → Reachable lib m
  | step : ∀ (m : Model) (msg : Msg), Reachable lib m → Reachable lib (m.update lib msg)

theorem inv_of_preserved {m m2 : Model} (hact : m2.active = m.active)
    (hlen : m2.tabs.length = m.tabs.length)
    (hun : (m2.tabs[m.active.toNat]?).map tabData.hasUnread
      = (m.tabs[m.active.toNat]?).map tabData.hasUnread)
    (h : Inv m) : Inv m2 := by
  obtain ⟨⟨hw0, hw1⟩, hu⟩ := h
  refine ⟨⟨by omega, by omega⟩, ?_⟩
  intro u hmem
  rw [hact] at hmem
  rw [hmem] at hun
  cases hh : m.tabs[m.active.toNat]? with
  | none => rw [hh] at hun; simp at hun
  | some t =>
    rw [hh] at hun
    have h2 : u.hasUnread = t.hasUnread := by simpa using hun
    rw [h2]
    exact hu t hh

theorem inv_activate (lib : VpLib) (m : Model) (a : Int)
    (h0 : 0 ≤ a) (h1 : a < (m.tabs.length : Int)) :
    Inv (Model.syncViewport lib { m with
      active := a,
      tabs := updateAt a.toNat (fun t => { t with hasUnread := false }) m.tabs }) := by
  constructor
  · constructor
    · rw [syncViewport_active]
      exact h0
    · rw [syncViewport_active, syncViewport_length]
      simpa [length_updateAt] using h1
  · intro u hmem
    rw [syncViewport_active] at hmem
    have hmap := syncViewport_hasUnread lib { m with
      active := a,
      tabs := updateAt a.toNat (fun t => { t with hasUnread := false }) m.tabs } a.toNat
    rw [hmem] at hmap
    simp only [getElem?_updateAt, if_pos rfl] at hmap
    cases hh : m.tabs[a.toNat]? with
    | none => rw [hh] at hmap; simp at hmap
    | some t =>
      rw [hh] at hmap
      simpa using hmap

theorem inv_modify_active_tab (m : Model) (f : tabData → tabData)
    (hf : ∀ t, (f t).hasUnread = t.hasUnread) (h : Inv m) :
    Inv { m with tabs := updateAt m.active.toNat f m.tabs } := by
  refine inv_of_preserved ?_ ?_ ?_ h
  · rfl
  · simp [length_updateAt]
  · simp only [getElem?_updateAt, if_pos rfl]
    cases hh : m.tabs[m.active.toNat]? <;> simp [hf]

theorem inv_appendLine (lib : VpLib) (m : Model) (tab : Int) (line : String)
    (h : Inv m) : Inv (Model.appendLine lib m tab line) := by
  apply inv_of_preserved (appendLine_active lib m tab line)
    (appendLine_length lib m tab line) ?_ h
  by_cases hg : tab < 0 ∨ (m.tabs.length : Int) ≤ tab
  · rw [appendLine_out_of_range lib m tab line hg]
  · by_cases he : tab = m.active
    · subst he
      exact appendLine_hasUnread_self lib m line m.active.toNat
    · apply appendLine_hasUnread_ne
      have h0 : 0 ≤ tab := by omega
      have hwa : 0 ≤ m.active := h.1.1
      omega

theorem digitIdx_nonneg (k : String)
    (h : k = "1" ∨ k = "2" ∨ k = "3" ∨ k = "4" ∨ k = "5" ∨ k = "6" ∨ k = "7" ∨
      k = "8" ∨ k = "9") : 0 ≤ digitIdx k := by
  rcases h with h|h|h|h|h|h|h|h|h <;> subst h <;> decide

theorem inv_update (lib : VpLib) (m : Model) (msg : Msg) (h : Inv m) :
    Inv (m.update lib msg) := by
  have hpos : (0 : Int) < (m.tabs.length : Int) := by
    obtain ⟨⟨hw0, hw1⟩, _⟩ := h
    omega
  cases msg with
  | key k =>
    simp only [Model.update]
    split
    · exact ⟨⟨h.1.1, h.1.2⟩, fun u hu => h.2 u hu⟩
    · split
      · exact inv_activate lib m _ (Int.emod_nonneg _ (by omega)) (Int.emod_lt_of_pos _ hpos)
      · split
        · exact inv_activate lib m _ (Int.emod_nonneg _ (by omega)) (Int.emod_lt_of_pos _ hpos)
        · split
          · next hdig =>
            split
            · next hlt => exact inv_activate lib m _ (digitIdx_nonneg k hdig) hlt
            · exact h
          · split
            · exact inv_modify_active_tab m _ (fun t => rfl) h
            · split
              · exact inv_modify_active_tab m _ (fun t => rfl) h
              · exact inv_modify_active_tab m _ (fun t => rfl) h
  | windowSize w hh =>
    exact inv_of_preserved (initViewports_active lib _) (initViewports_length lib _)
      (initViewports_hasUnread lib _ _) h
  | logLineAndContinue tab line => exact inv_appendLine lib m tab line h
  | logLine tab line => exact inv_appendLine lib m tab line h
  | processExited tab err => exact inv_appendLine lib m tab (exitSuffix err) h

theorem NewAux_ok (builder : String → Except String ExecCmd) (names : List String)
    (tabs : List tabData) (cmds : List ExecCmd)
    (h : (NewAux builder names).1 = Except.ok (tabs, cmds)) :
    tabs.length = names.length ∧ ∀ t ∈ tabs, t.hasUnread = false := by
  induction names generalizing tabs cmds with
  | nil =>
    simp only [NewAux] at h
    obtain ⟨h1, h2⟩ : ([] : List tabData) = tabs ∧ ([] : List ExecCmd) = cmds := by
      simpa using h
    subst h1
    simp
  | cons n rest ih =>
    simp only [NewAux] at h
    cases hb : builder n with
    | error e => rw [hb] at h; simp at h
    | ok cmd =>
      rw [hb] at h
      cases hr : (NewAux builder rest).1 with
      | error e => rw [hr] at h; simp at h
      | ok pr =>
        obtain ⟨tabs0, cmds0⟩ := pr
        rw [hr] at h
        simp only [Except.ok.injEq, Prod.mk.injEq] at h
        obtain ⟨h1, h2⟩ := h
        obtain ⟨ihl, ihu⟩ := ih tabs0 cmds0 hr
        constructor
        · rw [← h1]
          simp [ihl]
        · rw [← h1]
          intro t ht
          rcases List.mem_cons.mp ht with hh | hh
          · rw [hh]
          · exact ihu t hh

theorem New_ok (names : List String) (builder : String → Except String ExecCmd)
    (m : Model) (h : New names builder = Except.ok m) :
    m.tabs.length = names.length ∧ m.active = 0 ∧ ∀ t ∈ m.tabs, t.hasUnread = false := by
  unfold New at h
  cases hr : (NewAux builder names).1 with
  | error e => rw [hr] at h; simp at h
  | ok pr =>
    obtain ⟨tabs, cmds⟩ := pr
    rw [hr] at h
    simp only [Except.ok.injEq] at h
    obtain ⟨hl, hu⟩ := NewAux_ok builder names tabs cmds hr
    rw [← h]
    exact ⟨hl, rfl, hu⟩

theorem inv_of_new (names : List String) (builder : String → Except String ExecCmd)
    (m : Model) (hne : names ≠ []) (h : New names builder = Except.ok m) : Inv m := by
  obtain ⟨hlen, hact, hun⟩ := New_ok names builder m h
  have hpos : 0 < names.length := List.length_pos.mpr hne
  constructor
  · constructor
    · rw [hact]
    · rw [hact, hlen]
      exact_mod_cast hpos
  · intro u hu
    have hmem : u ∈ m.tabs := by
      have := List.getElem?_eq_some.mp hu
      obtain ⟨hlt, hget⟩ := this
      rw [← hget]
      exact List.getElem_mem hlt
    exact hun u hmem

theorem reachable_inv (lib : VpLib) (m : Model) (h : Reachable lib m) : Inv m := by
  induction h with
  | init names builder m0 hne hok => exact inv_of_new names builder m0 hne hok
  | step m0 msg hr ih => exact inv_update lib m0 msg ih

/-- Whether the builder succeeds on a name. -/
def buildOk (builder : String → Except String ExecCmd) (x : String) : Bool :=
  match builder x with
  | .ok _ => true
  | .error _ => false

theorem buildCalls_spec (names : List String) (builder : String → Except String ExecCmd) :
    buildCalls names builder =
      names.takeWhile (buildOk builder)
        ++ (names.dropWhile (buildOk builder)).take 1 := by
  induction names with
  | nil => simp [buildCalls, NewAux]
  | cons n rest ih =>
    simp only [buildCalls, NewAux]
    cases hb : builder n with
    | error e =>
      simp [List.takeWhile_cons, List.dropWhile_cons, buildOk, hb]
    | ok cmd =>
      cases hr : (NewAux builder rest).1 with
      | error e =>
        simp only [List.takeWhile_cons, List.dropWhile_cons, buildOk, hb]
        simpa [buildCalls, buildOk] using ih
      | ok pr =>
        obtain ⟨tabs0, cmds0⟩ := pr
        simp only [List.takeWhile_cons, List.dropWhile_cons, buildOk, hb]
        simpa [buildCalls, buildOk] using ih

theorem NewAux_error_of_build_error (builder : String → Except String ExecCmd)
    (names : List String) (n : String) (hn : n ∈ names) (e : String)
    (he : builder n = Except.error e) :
    ∃ e2, (NewAux builder names).1 = Except.error e2 := by
  induction names with
  | nil => simp at hn
  | cons n0 rest ih =>
    simp only [NewAux]
    cases hb : builder n0 with
    | error e0 => exact ⟨_, rfl⟩
    | ok cmd =>
      rcases List.mem_cons.mp hn with hh | hh
      · rw [hh] at he
        rw [he] at hb
        simp at hb
      · obtain ⟨e2, h2⟩ := ih hh
        rw [h2]
        exact ⟨e2, rfl⟩

theorem Run_error_of_build_error (builder : String → Except String ExecCmd)
    (names : List String) (n : String) (hn : n ∈ names) (e : String)
    (he : builder n = Except.error e) :
    ∃ e2, Run names builder = Except.error e2 := by
  obtain ⟨e2, h2⟩ := NewAux_error_of_build_error builder names n hn e he
  have hne : names.length ≠ 0 := by
    cases names with
    | nil => simp at hn
    | cons a rest => simp
  unfold Run New
  rw [if_neg hne, h2]
  exact ⟨e2, rfl⟩

theorem dropCR_length_le (l : List Char) : (dropCR l).length ≤ l.length := by
  unfold dropCR
  split
  · simp [List.length_dropLast]
  · exact Nat.le_refl _

theorem scanLinesAux_bound (maxTok : Nat) (input : List Char) :
    ∀ acc, acc.length < maxTok → ∀ l ∈ scanLinesAux maxTok input acc, l.length ≤ maxTok := by
  induction input with
  | nil =>
    intro acc hacc l hl
    unfold scanLinesAux at hl
    split at hl
    · simp at hl
    · have : l = dropCR acc := by simpa using hl
      rw [this]
      have := dropCR_length_le acc
      omega
  | cons c rest ih =>
    intro acc hacc l hl
    unfold scanLinesAux at hl
    split at hl
    · rcases List.mem_cons.mp hl with hh | hh
      · rw [hh]
        have := dropCR_length_le acc
        omega
      · exact ih [] (by simpa using Nat.lt_of_le_of_lt (Nat.zero_le _) hacc) l hh
    · split at hl
      · simp at hl
      · exact ih (acc ++ [c]) (by simp; omega) l hl

/-! ## Concrete instances used by witnesses -/

/-- A trivial implementation of the external viewport operations. -/
def sampleLib : VpLib :=
  { update := fun v _ => v, setContent := fun v _ => v }

def sampleTab : tabData :=
  { name := "a", lines := [], viewport := Viewport.new 0 0, follow := true,
    hasUnread := false }

def sampleModel : Model :=
  { tabs := [sampleTab], active := 0, width := 0, height := 0, ready := false,
    cmds := [some { processStarted := true, killed := false }],
    readers := [some { closed := false }], quitting := false }

def sampleModel2 : Model :=
  { tabs := [sampleTab, { sampleTab with name := "b" }], active := 0, width := 0,
    height := 0, ready := false,
    cmds := [some { processStarted := true, killed := false }, none],
    readers := [some { closed := false }, none], quitting := false }

def okBuilder : String → Except String ExecCmd :=
  fun _ => Except.ok { processStarted := false, killed := false }

def failingBuilder : String → Except String ExecCmd :=
  fun n =>
    if n = "a" then Except.error "boom"
    else Except.ok { processStarted := false, killed := false }

/-- The model `New ["a"] okBuilder` produces. -/
def sampleInit : Model :=
  { tabs := [sampleTab],
    active := 0, width := 0, height := 0, ready := false,
    cmds := [some { processStarted := false, killed := false }],
    readers := [none], quitting := false }

/-! ## Claims -/

/-- C1: for every sequence of lines appended to one tab's buffer via
appendLine, after every append the buffer's length is at most MAX_LINES
(10,000), and the retained lines are exactly the most recently appended
MAX_LINES lines in their original append order; with a cap of 5,
appending "1".."8" leaves exactly "4".."8". -/
theorem C1_bounded_buffer (lib : VpLib) (m : Model) (t : Int) (line : String)
    (ls : List String) (n : Nat) :
    (appendAll maxLines [] (ls.take n)).length ≤ maxLines ∧
    appendAll maxLines [] ls = ls.drop (ls.length - maxLines) ∧
    (0 ≤ t → t < (m.tabs.length : Int) →
      ((Model.appendLine lib m t line).tabs[t.toNat]?).map tabData.lines
        = (m.tabs[t.toNat]?).map (fun tb => boundedAppend maxLines tb.lines line)) ∧
    appendAll 5 [] ["1", "2", "3", "4", "5", "6", "7", "8"]
      = ["4", "5", "6", "7", "8"] := by
  refine ⟨appendAll_nil_length_le _ _, appendAll_nil_drop _ _,
    fun h0 h1 => appendLine_lines lib m t line h0 h1, by decide⟩

/-- Witness for C1 at a concrete in-range tab. -/
theorem C1_bounded_buffer_witness :
    ((Model.appendLine sampleLib sampleModel 0 "x").tabs[(0 : Int).toNat]?).map tabData.lines
      = (sampleModel.tabs[(0 : Int).toNat]?).map
          (fun tb => boundedAppend maxLines tb.lines "x") :=
  (C1_bounded_buffer sampleLib sampleModel 0 "x" [] 0).2.2.1 (by decide) (by decide)

/-- C2 counterexample: the status line the code appends on a clean process
exit is " [process exited]" with a leading space, not "[process exited]"
as the claim states. -/
theorem C2_counterexample :
    ((Model.update sampleLib sampleModel (Msg.processExited 0 none)).tabs[0]?).map
        tabData.lines
      = some [" [process exited]"] ∧
    (" [process exited]" : String) ≠ "[process exited]" := by
  constructor
  · decide
  · decide

/-- C2 amended: processing a process-exit event for an in-range source i
appends exactly " [process exited]" (leading space) to buffer i when the
exit carried no error, and exactly " [process exited: <detail>]" when it
carried an error. -/
theorem C2_exit_line (lib : VpLib) (m : Model) (t : Int) (e : String)
    (h0 : 0 ≤ t) (h1 : t < (m.tabs.length : Int)) :
    ((Model.update lib m (Msg.processExited t none)).tabs[t.toNat]?).map tabData.lines
      = (m.tabs[t.toNat]?).map
          (fun tb => boundedAppend maxLines tb.lines " [process exited]") ∧
    ((Model.update lib m (Msg.processExited t (some e))).tabs[t.toNat]?).map tabData.lines
      = (m.tabs[t.toNat]?).map
          (fun tb => boundedAppend maxLines tb.lines (" [process exited: " ++ e ++ "]")) := by
  constructor
  · exact appendLine_lines lib m t " [process exited]" h0 h1
  · exact appendLine_lines lib m t (" [process exited: " ++ e ++ "]") h0 h1

/-- Witness for C2_exit_line at a concrete in-range tab. -/
theorem C2_exit_line_witness :
    ((Model.update sampleLib sampleModel (Msg.processExited 0 none)).tabs[(0 : Int).toNat]?).map
        tabData.lines
      = (sampleModel.tabs[(0 : Int).toNat]?).map
          (fun tb => boundedAppend maxLines tb.lines " [process exited]") :=
  (C2_exit_line sampleLib sampleModel 0 "err" (by decide) (by decide)).1

/-- C5: Run returns an error when given an empty source list, and when
some build call fails; in the build-failure case no run loop is entered
(no ok result). -/
theorem C5_run_errors (builder : String → Except String ExecCmd)
    (names : List String) (n : String) (e : String)
    (hn : n ∈ names) (he : builder n = Except.error e) :
    (∃ e2, Run ([] : List String) builder = Except.error e2) ∧
    (∃ e2, Run names builder = Except.error e2) ∧
    (∀ m0 : Model, Run names builder ≠ Except.ok m0) := by
  obtain ⟨e2, h2⟩ := Run_error_of_build_error builder names n hn e he
  refine ⟨⟨_, rfl⟩, ⟨e2, h2⟩, ?_⟩
  intro m0 hok
  rw [h2] at hok
  simp at hok

/-- Witness for C5 with a concrete failing builder. -/
theorem C5_run_errors_witness :
    ∃ e2, Run ["a", "b"] failingBuilder = Except.error e2 :=
  (C5_run_errors failingBuilder ["a", "b"] "a" "boom" (by simp) (by rfl)).2.1

/-- C6: when pipe allocation or process start fails, the line source
delivers exactly one terminal process-exit event carrying the underlying
error (the pipe error wrapped as "pipe: ..."), and no line event at
all. -/
theorem C6_tail_failure (tab : Int) (startErr : Option String)
    (stream : List String) (waitErr : Option String) (e : String) :
    tailEvents tab (some e) startErr stream waitErr
      = [Msg.processExited tab (some ("pipe: " ++ e))] ∧
    tailEvents tab none (some e) stream waitErr
      = [Msg.processExited tab (some e)] ∧
    (∀ t2 l2, Msg.logLineAndContinue t2 l2 ∉ tailEvents tab (some e) startErr stream waitErr) ∧
    (∀ t2 l2, Msg.logLineAndContinue t2 l2 ∉ tailEvents tab none (some e) stream waitErr) := by
  refine ⟨rfl, rfl, ?_, ?_⟩
  · intro t2 l2 hmem
    simp [tailEvents] at hmem
  · intro t2 l2 hmem
    simp [tailEvents] at hmem

/-- C7 counterexample: when build fails for source "a", the builder is
never called for the later source "b", so build is not called exactly
once per source name in the failure case. -/
theorem C7_counterexample :
    buildCalls ["a", "b"] failingBuilder = ["a"] ∧
    "b" ∉ buildCalls ["a", "b"] failingBuilder := by
  constructor
  · decide
  · decide

/-- C7 amended: at startup, before entering the run loop, the viewer calls
build once per source name in list order up to and including the first
name whose build fails; names after the first failure are not built.  In
particular, when every build succeeds it is called exactly once per source
name, in order. -/
theorem C7_build_calls (names : List String)
    (builder : String → Except String ExecCmd) :
    buildCalls names builder
      = names.takeWhile (buildOk builder)
          ++ (names.dropWhile (buildOk builder)).take 1 ∧
    ((∀ x ∈ names, buildOk builder x = true) → buildCalls names builder = names) := by
  refine ⟨buildCalls_spec names builder, fun hall => ?_⟩
  rw [buildCalls_spec]
  rw [List.takeWhile_eq_self_iff.mpr hall, List.dropWhile_eq_nil_iff.mpr hall]
  simp

/-- Witness for C7's all-success case with a concrete builder. -/
theorem C7_build_calls_witness :
    buildCalls ["a", "b"] okBuilder = ["a", "b"] :=
  (C7_build_calls ["a", "b"] okBuilder).2 (by intro x hx; rfl)

/-- C8: every line the source's scanner yields is at most 1 MiB long
(the maximum token size configured on the scanner in tailLogs). -/
theorem C8_line_cap (input : List Char) (l : List Char)
    (hl : l ∈ scanLines input) : l.length ≤ 1024 * 1024 :=
  scanLinesAux_bound (1024 * 1024) input [] (by decide) l hl

/-- Witness for C8 on a concrete scanned stream. -/
theorem C8_line_cap_witness :
    String.toList "ab" ∈ scanLines (String.toList "ab" ++ [Char.ofNat 10] ++ String.toList "c") ∧
    (String.toList "ab").length ≤ 1024 * 1024 :=
  ⟨by decide, C8_line_cap (String.toList "ab" ++ [Char.ofNat 10] ++ String.toList "c")
    (String.toList "ab") (by decide)⟩

/-- C10: a line-arrival or process-exit event with an out-of-range source
index, and a direct-jump digit key whose 0-based index is at least the
number of tabs, leave the entire viewer state unchanged. -/
theorem C10_out_of_range (lib : VpLib) (m : Model) (t : Int) (l : String)
    (e : Option String) (k : String) :
    (t < 0 ∨ (m.tabs.length : Int) ≤ t →
      Model.update lib m (Msg.logLine t l) = m ∧
      Model.update lib m (Msg.logLineAndContinue t l) = m ∧
      Model.update lib m (Msg.processExited t e) = m) ∧
    ((k = "1" ∨ k = "2" ∨ k = "3" ∨ k = "4" ∨ k = "5" ∨ k = "6" ∨ k = "7" ∨
        k = "8" ∨ k = "9") →
      (m.tabs.length : Int) ≤ digitIdx k →
      Model.update lib m (Msg.key k) = m) := by
  constructor
  · intro hg
    exact ⟨appendLine_out_of_range lib m t l hg,
      appendLine_out_of_range lib m t l hg,
      appendLine_out_of_range lib m t (exitSuffix e) hg⟩
  · intro hdig hge
    rcases hdig with h|h|h|h|h|h|h|h|h <;> subst h <;>
      (simp only [Model.update]
       rw [if_neg (by decide), if_neg (by decide), if_neg (by decide),
         if_pos (by decide), if_neg (by omega)])

/-- Witness for C10 at concrete out-of-range inputs. -/
theorem C10_out_of_range_witness :
    Model.update sampleLib sampleModel (Msg.logLine 5 "x") = sampleModel ∧
    Model.update sampleLib sampleModel (Msg.key "9") = sampleModel :=
  ⟨((C10_out_of_range sampleLib sampleModel 5 "x" none "9").1 (by decide)).1,
    (C10_out_of_range sampleLib sampleModel 5 "x" none "9").2 (by decide) (by decide)⟩

theorem syncActivate_hasUnread (lib : VpLib) (m : Model) (a : Int)
    (h0 : 0 ≤ a) (h1 : a < (m.tabs.length : Int)) :
    ((Model.syncViewport lib { m with
        active := a,
        tabs := updateAt a.toNat (fun t => { t with hasUnread := false })
          m.tabs }).tabs[a.toNat]?).map tabData.hasUnread = some false := by
  rw [syncViewport_hasUnread]
  simp only [getElem?_updateAt, if_pos rfl]
  have hlt : a.toNat < m.tabs.length := by omega
  rw [List.getElem?_eq_getElem hlt]
  simp

theorem update_activate_hasUnread (lib : VpLib) (m : Model) (k : String)
    (hwf : m.wf)
    (hk : (k = "tab" ∨ k = "right" ∨ k = "l") ∨
      (k = "shift+tab" ∨ k = "left" ∨ k = "h") ∨
      ((k = "1" ∨ k = "2" ∨ k = "3" ∨ k = "4" ∨ k = "5" ∨ k = "6" ∨ k = "7" ∨
          k = "8" ∨ k = "9") ∧ digitIdx k < (m.tabs.length : Int))) :
    ((Model.update lib m (Msg.key k)).tabs[(Model.update lib m
        (Msg.key k)).active.toNat]?).map tabData.hasUnread = some false := by
  obtain ⟨hw0, hw1⟩ := hwf
  have hpos : (0 : Int) < (m.tabs.length : Int) := by omega
  rcases hk with hnx | hpv | ⟨hdig, hlt⟩
  · rcases hnx with h|h|h <;> subst h <;>
      (simp only [Model.update]
       rw [if_neg (by decide), if_pos (by decide)]
       rw [syncViewport_active]
       exact syncActivate_hasUnread lib m _ (Int.emod_nonneg _ (by omega))
         (Int.emod_lt_of_pos _ hpos))
  · rcases hpv with h|h|h <;> subst h <;>
      (simp only [Model.update]
       rw [if_neg (by decide), if_neg (by decide), if_pos (by decide)]
       rw [syncViewport_active]
       exact syncActivate_hasUnread lib m _ (Int.emod_nonneg _ (by omega))
         (Int.emod_lt_of_pos _ hpos))
  · have h0 := digitIdx_nonneg k hdig
    rcases hdig with h|h|h|h|h|h|h|h|h <;> subst h <;>
      (simp only [Model.update]
       rw [if_neg (by decide), if_neg (by decide), if_neg (by decide),
         if_pos (by decide), if_pos hlt]
       rw [syncViewport_active]
       exact syncActivate_hasUnread lib m _ h0 hlt)

theorem modifyActive_follow (m : Model) (f : tabData → tabData) (b : Bool)
    (hf : ∀ t, (f t).follow = b) (hlt : m.active.toNat < m.tabs.length) :
    ((updateAt m.active.toNat f m.tabs)[m.active.toNat]?).map tabData.follow
      = some b := by
  simp only [getElem?_updateAt, if_pos rfl]
  rw [List.getElem?_eq_getElem hlt]
  simp [hf]

/-- The key strings the `Update` switch recognizes; any other key message
falls through to the viewport scroll handling. -/
def recognizedKeys : List String :=
  ["ctrl+c", "q", "esc", "tab", "right", "l", "shift+tab", "left", "h",
   "1", "2", "3", "4", "5", "6", "7", "8", "9", "G", "end", "g", "home"]

/-- C3: appending to a non-active tab sets its unread flag; appending to
the active tab never sets it; activating a tab (next/prev/direct-jump)
clears that tab's unread flag; and in every reachable state the active
tab's unread flag is false (so it is false after every event). -/
theorem C3_unread (lib : VpLib) (m : Model) (t : Int) (line : String) (k : String) :
    (Reachable lib m → ∀ u, m.tabs[m.active.toNat]? = some u → u.hasUnread = false) ∧
    (0 ≤ t → t < (m.tabs.length : Int) → t ≠ m.active →
      ((Model.appendLine lib m t line).tabs[t.toNat]?).map tabData.hasUnread
        = some true) ∧
    (((Model.appendLine lib m m.active line).tabs[m.active.toNat]?).map tabData.hasUnread
      = (m.tabs[m.active.toNat]?).map tabData.hasUnread) ∧
    (m.wf →
      ((k = "tab" ∨ k = "right" ∨ k = "l") ∨
        (k = "shift+tab" ∨ k = "left" ∨ k = "h") ∨
        ((k = "1" ∨ k = "2" ∨ k = "3" ∨ k = "4" ∨ k = "5" ∨ k = "6" ∨ k = "7" ∨
            k = "8" ∨ k = "9") ∧ digitIdx k < (m.tabs.length : Int))) →
      ((Model.update lib m (Msg.key k)).tabs[(Model.update lib m
          (Msg.key k)).active.toNat]?).map tabData.hasUnread = some false) := by
  refine ⟨?_, ?_, ?_, ?_⟩
  · intro hr u hu
    exact (reachable_inv lib m hr).2 u hu
  · intro h0 h1 hne
    exact appendLine_hasUnread_other lib m t line h0 h1 hne
  · exact appendLine_hasUnread_self lib m line m.active.toNat
  · intro hwf hk
    exact update_activate_hasUnread lib m k hwf hk

/-- Witness for C3: a reachable one-tab model, a concrete non-active
append, and a concrete tab activation. -/
theorem C3_unread_witness :
    (∀ u, sampleInit.tabs[sampleInit.active.toNat]? = some u →
      u.hasUnread = false) ∧
    ((Model.appendLine sampleLib sampleModel2 1 "x").tabs[(1 : Int).toNat]?).map
        tabData.hasUnread = some true ∧
    ((Model.update sampleLib sampleModel2 (Msg.key "tab")).tabs[(Model.update
        sampleLib sampleModel2 (Msg.key "tab")).active.toNat]?).map
        tabData.hasUnread = some false := by
  refine ⟨(C3_unread sampleLib sampleInit 0 "x" "tab").1 ?_,
    (C3_unread sampleLib sampleModel2 1 "x" "tab").2.1 (by decide) (by decide)
      (by decide),
    (C3_unread sampleLib sampleModel2 1 "x" "tab").2.2.2 ⟨by decide, by decide⟩
      (Or.inl (Or.inl rfl))⟩
  exact Reachable.init ["a"] okBuilder sampleInit (by decide) rfl

/-- C4: jump-to-top disables follow; jump-to-bottom enables follow; after
any other (scroll/page) key event, the active tab's follow flag equals
whether its viewport is at the bottom. -/
theorem C4_follow (lib : VpLib) (m : Model) (k : String)
    (h0 : 0 ≤ m.active) (h1 : m.active < (m.tabs.length : Int)) :
    (((Model.update lib m (Msg.key "g")).tabs[m.active.toNat]?).map tabData.follow
      = some false) ∧
    (((Model.update lib m (Msg.key "home")).tabs[m.active.toNat]?).map tabData.follow
      = some false) ∧
    (((Model.update lib m (Msg.key "G")).tabs[m.active.toNat]?).map tabData.follow
      = some true) ∧
    (((Model.update lib m (Msg.key "end")).tabs[m.active.toNat]?).map tabData.follow
      = some true) ∧
    (k ∉ recognizedKeys →
      ((Model.update lib m (Msg.key k)).tabs[m.active.toNat]?).map tabData.follow
        = ((Model.update lib m (Msg.key k)).tabs[m.active.toNat]?).map
            (fun t => Viewport.atBottom t.viewport)) := by
  have hlt : m.active.toNat < m.tabs.length := by omega
  refine ⟨?_, ?_, ?_, ?_, ?_⟩
  · simp only [Model.update]
    rw [if_neg (by decide), if_neg (by decide), if_neg (by decide),
      if_neg (by decide), if_neg (by decide), if_pos (by decide)]
    exact modifyActive_follow m _ false (fun t => rfl) hlt
  · simp only [Model.update]
    rw [if_neg (by decide), if_neg (by decide), if_neg (by decide),
      if_neg (by decide), if_neg (by decide), if_pos (by decide)]
    exact modifyActive_follow m _ false (fun t => rfl) hlt
  · simp only [Model.update]
    rw [if_neg (by decide), if_neg (by decide), if_neg (by decide),
      if_neg (by decide), if_pos (by decide)]
    exact modifyActive_follow m _ true (fun t => rfl) hlt
  · simp only [Model.update]
    rw [if_neg (by decide), if_neg (by decide), if_neg (by decide),
      if_neg (by decide), if_pos (by decide)]
    exact modifyActive_follow m _ true (fun t => rfl) hlt
  · intro hknot
    simp only [recognizedKeys, List.mem_cons, List.not_mem_nil, or_false,
      not_or] at hknot
    obtain ⟨q1, q2, q3, t1, t2, t3, s1, s2, s3, d1, d2, d3, d4, d5, d6, d7, d8,
      d9, g1, g2, g3, g4⟩ := hknot
    simp only [Model.update]
    rw [if_neg (by push_neg; exact ⟨q1, q2, q3⟩),
      if_neg (by push_neg; exact ⟨t1, t2, t3⟩),
      if_neg (by push_neg; exact ⟨s1, s2, s3⟩),
      if_neg (by push_neg; exact ⟨d1, d2, d3, d4, d5, d6, d7, d8, d9⟩),
      if_neg (by push_neg; exact ⟨g1, g2⟩),
      if_neg (by push_neg; exact ⟨g3, g4⟩)]
    simp only [getElem?_updateAt, if_pos rfl]
    cases hh : m.tabs[m.active.toNat]? <;> simp

/-- Witness for C4 on a concrete model with a forwarded scroll key. -/
theorem C4_follow_witness :
    ((Model.update sampleLib sampleModel (Msg.key "g")).tabs[sampleModel.active.toNat]?).map
        tabData.follow = some false ∧
    ((Model.update sampleLib sampleModel (Msg.key "down")).tabs[sampleModel.active.toNat]?).map
        tabData.follow
      = ((Model.update sampleLib sampleModel (Msg.key "down")).tabs[sampleModel.active.toNat]?).map
          (fun t => Viewport.atBottom t.viewport) :=
  ⟨(C4_follow sampleLib sampleModel "down" (by decide) (by decide)).1,
    (C4_follow sampleLib sampleModel "down" (by decide) (by decide)).2.2.2.2
      (by decide)⟩

/-- C9: on a quit key the viewer sets quitting, issues a kill to every
command whose process was started, and closes every non-nil pipe read end
(regardless of the process's state). -/
theorem C9_quit (lib : VpLib) (m : Model) (k : String)
    (hk : k = "ctrl+c" ∨ k = "q" ∨ k = "esc") :
    (Model.update lib m (Msg.key k)).quitting = true ∧
    (∀ c ∈ (Model.update lib m (Msg.key k)).cmds, ∀ cmd, c = some cmd →
      cmd.processStarted = true → cmd.killed = true) ∧
    (∀ r ∈ (Model.update lib m (Msg.key k)).readers, ∀ f2, r = some f2 →
      f2.closed = true) := by
  simp only [Model.update]
  rw [if_pos hk]
  refine ⟨rfl, ?_, ?_⟩
  · intro c hc cmd hceq hstart
    simp only [Model.killAll] at hc
    rcases List.mem_map.mp hc with ⟨c0, hc0, hfc⟩
    cases c0 with
    | none => rw [← hfc] at hceq; simp at hceq
    | some cmd0 =>
      rw [← hfc] at hceq
      simp only [Option.some.injEq] at hceq
      by_cases hs : cmd0.processStarted
      · rw [if_pos hs] at hceq
        rw [← hceq]
      · rw [if_neg hs] at hceq
        rw [← hceq] at hstart
        exact absurd hstart hs
  · intro r hr f2 hreq
    simp only [Model.killAll] at hr
    rcases List.mem_map.mp hr with ⟨r0, hr0, hfr⟩
    cases r0 with
    | none => rw [← hfr] at hreq; simp at hreq
    | some f0 =>
      rw [← hfr] at hreq
      simp only [Option.some.injEq] at hreq
      rw [← hreq]

/-- Witness for C9 at a concrete model with a started process and an open
reader. -/
theorem C9_quit_witness :
    (Model.update sampleLib sampleModel (Msg.key "q")).quitting = true ∧
    ({ processStarted := true, killed := true } : ExecCmd).killed = true ∧
    ({ closed := true } : PipeReader).closed = true :=
  ⟨(C9_quit sampleLib sampleModel "q" (by decide)).1,
    (C9_quit sampleLib sampleModel "q" (by decide)).2.1
      (some { processStarted := true, killed := true }) (by decide) _ rfl rfl,
    (C9_quit sampleLib sampleModel "q" (by decide)).2.2
      (some { closed := true }) (by decide) _ rfl⟩

/-- Witness for C6 on a concrete failing pipe allocation. -/
theorem C6_tail_failure_witness :
    tailEvents 0 (some "nope") none ["l1"] none
      = [Msg.processExited 0 (some ("pipe: " ++ "nope"))] ∧
    Msg.logLineAndContinue 0 "l1" ∉ tailEvents 0 (some "nope") none ["l1"] none :=
  ⟨(C6_tail_failure 0 none ["l1"] none "nope").1,
    (C6_tail_failure 0 none ["l1"] none "nope").2.2.1 0 "l1"⟩

end LogsViewer
